import Mathlib

/-!
Verification of the indicator / report pipeline of `gptkline.py`.

The script computes technical indicators over a daily OHLCV table with
pandas and renders rule-based narrative text.  We embed the numeric
pipeline shallowly:

* prices, volumes and indicator values are exact rationals (`ℚ`);
* a pandas `NaN` entry is modelled as `Option.none`;
* pandas float division of nonzero by zero yields `inf` and `0/0` yields
  `NaN`; the only place this matters is the RSI ratio `gain / loss`,
  where the embedding case-splits explicitly (`rsiCombine`);
* `Series.ewm(span=s, adjust=False).mean()` is the recursive smoothing
  `ema[0] = x[0]`, `ema[i] = α·x[i] + (1-α)·ema[i-1]`, `α = 2/(s+1)`;
* `Series.rolling(window=w, min_periods=m).mean()` at row `i` averages
  the trailing `min (i+1) w` values and is `NaN` when fewer than `m`
  values are available.
-/

/-- One row of the downloaded OHLCV table (`df` in `gptkline.py`).
`date` abstracts the pandas datetime index as a natural number. -/
structure Bar where
  date : ℕ
  opn : ℚ
  high : ℚ
  low : ℚ
  close : ℚ
  volume : ℚ
deriving DecidableEq, Repr

/-- Result of `download_data` after cleaning: the bar rows plus the
`Adj Close` column when the download provides one. -/
structure RawData where
  bars : List Bar
  adjClose : Option (List ℚ)
deriving DecidableEq, Repr

/-- Column `Close_for_calc` built by `download_data`: the adjusted close
when an `Adj Close` column is available, the plain close otherwise. -/
def close_for_calc (d : RawData) : List ℚ :=
  match d.adjClose with
  | some a => a
  | none => d.bars.map (fun b => b.close)

/-- Tail of the exponential smoothing: smooths `xs` starting from the
already-smoothed value `prev`. -/
def ewmaFrom (α : ℚ) (prev : ℚ) : List ℚ → List ℚ
  | [] => []
  | x :: xs => (α * x + (1 - α) * prev) :: ewmaFrom α (α * x + (1 - α) * prev) xs

/-- `Series.ewm(span=s, adjust=False).mean()` with `α = 2/(s+1)`:
the first output equals the first input, each later output is
`α·x + (1-α)·previous`. -/
def ewma (α : ℚ) : List ℚ → List ℚ
  | [] => []
  | x :: xs => x :: ewmaFrom α x xs

/-- `Series.diff()`: first entry is `NaN`, entry `i` is `x[i] - x[i-1]`. -/
def diffW (p : List ℚ) : List (Option ℚ) :=
  (List.range p.length).map fun i =>
    if i = 0 then none else some (p.getD i 0 - p.getD (i - 1) 0)

/-- Pointwise step of `delta.where(delta > 0, 0)`: a positive delta is
kept, anything else — including `NaN`, whose comparison is `False` —
becomes 0. -/
def posClip : Option ℚ → ℚ
  | some v => if v > 0 then v else 0
  | none => 0

/-- Pointwise step of `-delta.where(delta < 0, 0)`: magnitude of a
negative delta, 0 otherwise — including for `NaN`. -/
def negClip : Option ℚ → ℚ
  | some v => if v < 0 then -v else 0
  | none => 0

/-- `delta.where(delta > 0, 0)` applied to the whole delta series. -/
def posDeltas (d : List (Option ℚ)) : List ℚ :=
  d.map posClip

/-- `-delta.where(delta < 0, 0)` applied to the whole delta series. -/
def negDeltas (d : List (Option ℚ)) : List ℚ :=
  d.map negClip

/-- `Series.rolling(window=w, min_periods=m).mean()` over a `NaN`-free
series: row `i` averages the trailing `min (i+1) w` values, and is `NaN`
(`none`) when fewer than `m` values are available. -/
def rollingMean (w m : ℕ) (p : List ℚ) : List (Option ℚ) :=
  (List.range p.length).map fun i =>
    let win := (p.take (i + 1)).drop (i + 1 - w)
    if m ≤ win.length then some (win.sum / (win.length : ℚ)) else none

/-- Pointwise RSI step `100 - 100/(1 + gain/loss)` under pandas float
semantics: `NaN` inputs propagate; `gain/0 = +inf` for `gain ≠ 0`, which
collapses the formula to exactly `100`; `0/0` is `NaN`. -/
def rsiCombine : Option ℚ → Option ℚ → Option ℚ
  | some gv, some lv =>
      if lv = 0 then
        if gv = 0 then none else some 100
      else
        some (100 - 100 / (1 + gv / lv))
  | _, _ => none

/-- The indicator columns added to the dataframe by `compute_indicators`. -/
structure Indicators where
  ema10 : List ℚ
  ema30 : List ℚ
  ema40 : List ℚ
  dif : List ℚ
  dea : List ℚ
  hist : List ℚ
  rsi : List (Option ℚ)
  volMa20 : List (Option ℚ)
deriving DecidableEq, Repr

/-- `compute_indicators`: EMA10/30/40 of `Close_for_calc`, MACD
(`DIF = EMA12 − EMA26`, `DEA = EMA9 of DIF`, `MACD_hist = DIF − DEA`),
14-period RSI from rolling means of positive/negative deltas, and the
20-period volume average with `min_periods=1`. -/
def compute_indicators (close volume : List ℚ) : Indicators :=
  let exp12 := ewma (2 / 13) close
  let exp26 := ewma (2 / 27) close
  let dif := List.zipWith (fun a b => a - b) exp12 exp26
  let dea := ewma (2 / 10) dif
  let g := rollingMean 14 14 (posDeltas (diffW close))
  let lo := rollingMean 14 14 (negDeltas (diffW close))
  { ema10 := ewma (2 / 11) close
    ema30 := ewma (2 / 31) close
    ema40 := ewma (2 / 41) close
    dif := dif
    dea := dea
    hist := List.zipWith (fun a b => a - b) dif dea
    rsi := List.zipWith rsiCombine g lo
    volMa20 := rollingMean 20 1 volume }

/-- `classify_candle(o, h, l, c)`: body/wick shape label of one candle,
with the `1e-9` epsilon the source adds to the denominator. -/
def classify_candle (o h l c : ℚ) : String :=
  let body := |c - o|
  let full := h - l + 1 / 1000000000
  let upper := h - max c o
  let lower := min c o - l
  let bodyRatio := if full > 0 then body / full else 0
  let typ :=
    if bodyRatio < 15 / 100 then "十字/小實體（盤整）"
    else if c > o then "陽線（紅K）"
    else "陰線（綠K）"
  if lower > body * 2 ∧ lower > upper then typ ++ "，長下影（可能支撐或吸籌）"
  else if upper > body * 2 ∧ upper > lower then typ ++ "，長上影（可能壓力或獲利了結）"
  else if bodyRatio > 7 / 10 then typ ++ "，實體長（趨勢強烈）"
  else typ

/-- Epsilon-free variant of `classify_candle`: the body ratio is the
exact `|c-o| / (h-l)` (0 on flat bars) instead of the source's
`|c-o| / (h-l+1e-9)`.  Identical otherwise. -/
def classify_candle_exact (o h l c : ℚ) : String :=
  let body := |c - o|
  let full := h - l
  let upper := h - max c o
  let lower := min c o - l
  let bodyRatio := if full > 0 then body / full else 0
  let typ :=
    if bodyRatio < 15 / 100 then "十字/小實體（盤整）"
    else if c > o then "陽線（紅K）"
    else "陰線（綠K）"
  if lower > body * 2 ∧ lower > upper then typ ++ "，長下影（可能支撐或吸籌）"
  else if upper > body * 2 ∧ upper > lower then typ ++ "，長上影（可能壓力或獲利了結）"
  else if bodyRatio > 7 / 10 then typ ++ "，實體長（趨勢強烈）"
  else typ

/-- `overall_trend_text(df)` reads the EMA columns of the computed
dataframe; `iloc[-1]` is index `n-1` and `iloc[-5]` index `n-5`, with
the lookback replaced by the first row when the frame has at most 5
rows. -/
def overall_trend_text (e10 e30 e40 : List ℚ) : String :=
  let n := e10.length
  let ema10 := e10.getD (n - 1) 0
  let ema30 := e30.getD (n - 1) 0
  let ema40 := e40.getD (n - 1) 0
  let slope10 := if 6 ≤ n then ema10 - e10.getD (n - 5) 0 else ema10 - e10.getD 0 0
  let slope30 := if 6 ≤ n then ema30 - e30.getD (n - 5) 0 else ema30 - e30.getD 0 0
  if ema10 > ema30 ∧ ema30 > ema40 ∧ slope10 > 0 ∧ slope30 > 0 then
    "中期趨勢仍偏多（均線多頭排列且向上）"
  else if ema10 < ema30 ∧ ema30 < ema40 ∧ slope10 < 0 then
    "中期偏空（均線空頭排列）"
  else
    "趨勢分歧或整理（需關注均線與量能）"

/-- Fields interpolated into the string `macd_status(df)` returns. -/
structure MacdStatus where
  dif : ℚ
  dea : ℚ
  hist : ℚ
  histTrend : String
  cross : String
deriving DecidableEq, Repr

/-- `macd_status(df)` on the `DIF`, `DEA` and `MACD_hist` columns:
histogram trend compares the last value with the value two rows back
(against 0 when fewer than 3 rows exist), and a cross is detected from
the sign of `DIF − DEA` on the last two rows. -/
def macd_status (difs deas hists : List ℚ) : MacdStatus :=
  let n := difs.length
  let dif := difs.getD (n - 1) 0
  let dea := deas.getD (n - 1) 0
  let hist := hists.getD (n - 1) 0
  let histTrend :=
    if (if 3 ≤ n then hists.getD (n - 1) 0 > hists.getD (n - 3) 0
        else hists.getD (n - 1) 0 > 0) then "上升"
    else "下降或收斂"
  let cross :=
    if 2 ≤ n then
      if dif > dea ∧ difs.getD (n - 2) 0 ≤ deas.getD (n - 2) 0 then
        "（近期出現 MACD 黃金交叉）"
      else if dif < dea ∧ difs.getD (n - 2) 0 ≥ deas.getD (n - 2) 0 then
        "（近期出現 MACD 死亡交叉）"
      else ""
    else ""
  { dif := dif, dea := dea, hist := hist, histTrend := histTrend, cross := cross }

/-- `Series.pct_change()`: first entry `NaN`, entry `i` is
`x[i]/x[i-1] - 1`. -/
def pctChange (p : List ℚ) : List (Option ℚ) :=
  (List.range p.length).map fun i =>
    if i = 0 then none else some (p.getD i 0 / p.getD (i - 1) 0 - 1)

/-- Accumulator pass of `Series.idxmax`: scan positions from `i`
keeping the first position holding the strictly largest non-`NaN`
value seen so far. -/
def idxmaxGo : ℕ → Option (ℕ × ℚ) → List (Option ℚ) → Option (ℕ × ℚ)
  | _, acc, [] => acc
  | i, acc, x :: xs =>
      idxmaxGo (i + 1)
        (match x, acc with
         | some v, some jm => if jm.2 < v then some (i, v) else some jm
         | some v, none => some (i, v)
         | none, a => a) xs

/-- `Series.idxmax` together with `Series.max`: position and value of
the first maximal non-`NaN` entry. -/
def idxmaxO (l : List (Option ℚ)) : Option (ℕ × ℚ) :=
  idxmaxGo 0 none l

/-- Accumulator pass of `Series.idxmin`, dual to `idxmaxGo`. -/
def idxminGo : ℕ → Option (ℕ × ℚ) → List (Option ℚ) → Option (ℕ × ℚ)
  | _, acc, [] => acc
  | i, acc, x :: xs =>
      idxminGo (i + 1)
        (match x, acc with
         | some v, some jm => if v < jm.2 then some (i, v) else some jm
         | some v, none => some (i, v)
         | none, a => a) xs

/-- `Series.idxmin` together with `Series.min`: position and value of
the first minimal non-`NaN` entry. -/
def idxminO (l : List (Option ℚ)) : Option (ℕ × ℚ) :=
  idxminGo 0 none l

/-- Numeric content of the context string built by `historical_context`
for a frame with at least 10 rows. -/
structure HistCtx where
  priceChange10 : ℚ
  volChange10 : ℚ
  maxUpDate : ℕ
  maxDownDate : ℕ
  maxUpPct : ℚ
  maxDownPct : ℚ
deriving DecidableEq, Repr

/-- Message `historical_context` returns for fewer than 10 rows. -/
def insufficientMsg : String := "資料不足，無法完整分析歷史脈絡。"

/-- `vol_change_10d` of `historical_context`: mean volume of the last
10 rows against `VOL_MA20` ten rows back, as a percent change; 0 when
that reference value is `NaN` (the source's `np.isnan` guard). -/
def vol_change_10d (vol : List ℚ) (volma : List (Option ℚ)) (n : ℕ) : ℚ :=
  match volma.getD (n - 10) none with
  | some m =>
      (((vol.drop (n - 10)).take 10).sum /
        (((vol.drop (n - 10)).take 10).length : ℚ) / m - 1) * 100
  | none => 0

/-- `historical_context(df)`: the fixed insufficient-data message below
10 rows, otherwise the 10-row cumulative price change, the volume-mean
shift against `VOL_MA20` ten rows back, and the dates and sizes of the
largest daily up- and down-moves inside the trailing 10 rows.  The
final catch-all arm is unreachable for 10 or more rows (the returns
window always holds a non-`NaN` entry); it stands in for the exception
pandas would raise on an all-`NaN` `idxmax`. -/
def historical_context (dates : List ℕ) (close vol : List ℚ)
    (volma : List (Option ℚ)) : String ⊕ HistCtx :=
  let n := close.length
  if n < 10 then Sum.inl insufficientMsg
  else
    let priceChange := (close.getD (n - 1) 0 / close.getD (n - 10) 0 - 1) * 100
    let volChange := vol_change_10d vol volma n
    let rets := pctChange ((close.drop (n - 10)).take 10)
    match idxmaxO rets, idxminO rets with
    | some ju, some jd =>
        Sum.inr
          { priceChange10 := priceChange
            volChange10 := volChange
            maxUpDate := dates.getD (n - 10 + ju.1) 0
            maxDownDate := dates.getD (n - 10 + jd.1) 0
            maxUpPct := ju.2 * 100
            maxDownPct := jd.2 * 100 }
    | _, _ => Sum.inl insufficientMsg

/-! ### Basic lemmas about the smoothing and windowing combinators -/

@[simp]
theorem length_ewmaFrom (α prev : ℚ) (xs : List ℚ) :
    (ewmaFrom α prev xs).length = xs.length := by
  induction xs generalizing prev with
  | nil => rfl
  | cons x xs ih => simp [ewmaFrom, ih]

@[simp]
theorem length_ewma (α : ℚ) (p : List ℚ) : (ewma α p).length = p.length := by
  cases p with
  | nil => rfl
  | cons x xs => simp [ewma]

theorem ewma_getD_zero (α : ℚ) (x : ℚ) (xs : List ℚ) :
    (ewma α (x :: xs)).getD 0 0 = x := rfl

theorem ewmaFrom_getD_succ (α : ℚ) (xs : List ℚ) : ∀ (prev : ℚ) (i : ℕ),
    i + 1 < xs.length →
    (ewmaFrom α prev xs).getD (i + 1) 0 =
      α * xs.getD (i + 1) 0 + (1 - α) * (ewmaFrom α prev xs).getD i 0 := by
  induction xs with
  | nil => intro prev i h; simp at h
  | cons x xs ih =>
    intro prev i h
    cases i with
    | zero =>
      cases xs with
      | nil => simp at h
      | cons y ys => simp [ewmaFrom]
    | succ j =>
      have hj : j + 1 < xs.length := by simpa using h
      simpa [ewmaFrom] using ih (α * x + (1 - α) * prev) j hj

theorem ewma_getD_succ (α : ℚ) (p : List ℚ) (i : ℕ) (h : i + 1 < p.length) :
    (ewma α p).getD (i + 1) 0 =
      α * p.getD (i + 1) 0 + (1 - α) * (ewma α p).getD i 0 := by
  cases p with
  | nil => simp at h
  | cons x xs =>
    cases i with
    | zero =>
      cases xs with
      | nil => simp at h
      | cons y ys => simp [ewma, ewmaFrom]
    | succ j =>
      have hj : j + 1 < xs.length := by simpa using h
      simpa [ewma] using ewmaFrom_getD_succ α xs x j hj

theorem ewmaFrom_take (α : ℚ) (xs : List ℚ) : ∀ (prev : ℚ) (k : ℕ),
    ewmaFrom α prev (xs.take k) = (ewmaFrom α prev xs).take k := by
  induction xs with
  | nil => intro prev k; simp [ewmaFrom]
  | cons x xs ih =>
    intro prev k
    cases k with
    | zero => simp [ewmaFrom]
    | succ m => simp [ewmaFrom, ih]

theorem ewma_take (α : ℚ) (p : List ℚ) (k : ℕ) :
    ewma α (p.take k) = (ewma α p).take k := by
  cases p with
  | nil => simp [ewma]
  | cons x xs =>
    cases k with
    | zero => simp [ewma]
    | succ m => simp [ewma, ewmaFrom_take]

theorem ewmaFrom_replicate (α q : ℚ) : ∀ n,
    ewmaFrom α q (List.replicate n q) = List.replicate n q := by
  intro n
  induction n with
  | zero => rfl
  | succ m ih =>
    have hq : α * q + (1 - α) * q = q := by ring
    simp [List.replicate_succ, ewmaFrom, hq, ih]

theorem ewma_replicate (α q : ℚ) (n : ℕ) :
    ewma α (List.replicate n q) = List.replicate n q := by
  cases n with
  | zero => rfl
  | succ m => simp [List.replicate_succ, ewma, ewmaFrom_replicate]

theorem getD_eq_getElem' {α : Type*} (l : List α) (i : ℕ) (d : α)
    (h : i < l.length) : l.getD i d = l[i] := by
  rw [List.getD_eq_getElem?_getD, List.getElem?_eq_getElem h]
  rfl

theorem getD_take_of_lt {α : Type*} (l : List α) (k i : ℕ) (h : i < k) (d : α) :
    (l.take k).getD i d = l.getD i d := by
  rw [List.getD_eq_getElem?_getD, List.getD_eq_getElem?_getD,
    List.getElem?_take, if_pos h]

@[simp]
theorem length_diffW (p : List ℚ) : (diffW p).length = p.length := by
  simp [diffW]

@[simp]
theorem length_posDeltas (d : List (Option ℚ)) : (posDeltas d).length = d.length := by
  simp [posDeltas]

@[simp]
theorem length_negDeltas (d : List (Option ℚ)) : (negDeltas d).length = d.length := by
  simp [negDeltas]

@[simp]
theorem length_rollingMean (w m : ℕ) (p : List ℚ) :
    (rollingMean w m p).length = p.length := by
  simp [rollingMean]

theorem diffW_getElem? (p : List ℚ) (i : ℕ) (h : i < p.length) :
    (diffW p)[i]? =
      some (if i = 0 then none else some (p.getD i 0 - p.getD (i - 1) 0)) := by
  simp [diffW, List.getElem?_map, List.getElem?_range, h]

theorem rollingMean_getElem? (w m : ℕ) (p : List ℚ) (i : ℕ) (h : i < p.length) :
    (rollingMean w m p)[i]? =
      some (if m ≤ ((p.take (i + 1)).drop (i + 1 - w)).length
            then some (((p.take (i + 1)).drop (i + 1 - w)).sum /
              (((p.take (i + 1)).drop (i + 1 - w)).length : ℚ))
            else none) := by
  simp [rollingMean, List.getElem?_map, List.getElem?_range, h]

theorem diffW_take (p : List ℚ) (k : ℕ) :
    diffW (p.take k) = (diffW p).take k := by
  apply List.ext_getElem?
  intro i
  by_cases hik : i < k
  · by_cases hin : i < p.length
    · have h1 : i < (p.take k).length := by simp [List.length_take]; omega
      rw [diffW_getElem? _ _ h1, List.getElem?_take, if_pos hik, diffW_getElem? _ _ hin]
      rcases Nat.eq_zero_or_pos i with hz | hpos
      · simp [hz]
      · have hi0 : i ≠ 0 := Nat.pos_iff_ne_zero.mp hpos
        rw [if_neg hi0, if_neg hi0, getD_take_of_lt _ _ _ hik,
          getD_take_of_lt _ _ _ (by omega)]
    · have h1 : (diffW (p.take k)).length ≤ i := by
        simp [List.length_take]; omega
      have h2 : (diffW p).length ≤ i := by simp; omega
      rw [List.getElem?_eq_none h1, List.getElem?_take, if_pos hik,
        List.getElem?_eq_none h2]
  · have h1 : (diffW (p.take k)).length ≤ i := by
      simp [List.length_take]; omega
    rw [List.getElem?_eq_none h1, List.getElem?_take, if_neg hik]

theorem rollingMean_take (w m : ℕ) (p : List ℚ) (k : ℕ) :
    rollingMean w m (p.take k) = (rollingMean w m p).take k := by
  apply List.ext_getElem?
  intro i
  by_cases hik : i < k
  · by_cases hin : i < p.length
    · have h1 : i < (p.take k).length := by simp [List.length_take]; omega
      rw [rollingMean_getElem? _ _ _ _ h1, List.getElem?_take, if_pos hik,
        rollingMean_getElem? _ _ _ _ hin, List.take_take,
        Nat.min_eq_left (by omega : i + 1 ≤ k)]
    · have h1 : (rollingMean w m (p.take k)).length ≤ i := by
        simp [List.length_take]; omega
      have h2 : (rollingMean w m p).length ≤ i := by simp; omega
      rw [List.getElem?_eq_none h1, List.getElem?_take, if_pos hik,
        List.getElem?_eq_none h2]
  · have h1 : (rollingMean w m (p.take k)).length ≤ i := by
      simp [List.length_take]; omega
    rw [List.getElem?_eq_none h1, List.getElem?_take, if_neg hik]

theorem posDeltas_take (d : List (Option ℚ)) (k : ℕ) :
    posDeltas (d.take k) = (posDeltas d).take k := by
  simp [posDeltas, List.map_take]

theorem negDeltas_take (d : List (Option ℚ)) (k : ℕ) :
    negDeltas (d.take k) = (negDeltas d).take k := by
  simp [negDeltas, List.map_take]

/-! ### Projections of `compute_indicators` -/

theorem compute_indicators_ema10 (c v : List ℚ) :
    (compute_indicators c v).ema10 = ewma (2 / 11) c := rfl

theorem compute_indicators_ema30 (c v : List ℚ) :
    (compute_indicators c v).ema30 = ewma (2 / 31) c := rfl

theorem compute_indicators_ema40 (c v : List ℚ) :
    (compute_indicators c v).ema40 = ewma (2 / 41) c := rfl

theorem compute_indicators_dif (c v : List ℚ) :
    (compute_indicators c v).dif =
      List.zipWith (fun a b => a - b) (ewma (2 / 13) c) (ewma (2 / 27) c) := rfl

theorem compute_indicators_dea (c v : List ℚ) :
    (compute_indicators c v).dea =
      ewma (2 / 10)
        (List.zipWith (fun a b => a - b) (ewma (2 / 13) c) (ewma (2 / 27) c)) := rfl

theorem compute_indicators_hist (c v : List ℚ) :
    (compute_indicators c v).hist =
      List.zipWith (fun a b => a - b) (compute_indicators c v).dif
        (compute_indicators c v).dea := rfl

theorem compute_indicators_rsi (c v : List ℚ) :
    (compute_indicators c v).rsi =
      List.zipWith rsiCombine (rollingMean 14 14 (posDeltas (diffW c)))
        (rollingMean 14 14 (negDeltas (diffW c))) := rfl

theorem compute_indicators_volMa20 (c v : List ℚ) :
    (compute_indicators c v).volMa20 = rollingMean 20 1 v := rfl

theorem ewma_getD_zero' (α : ℚ) (p : List ℚ) (h : 0 < p.length) :
    (ewma α p).getD 0 0 = p.getD 0 0 := by
  cases p with
  | nil => simp at h
  | cons x xs => rfl

/-- Volume column of the dataframe. -/
def volumes (d : RawData) : List ℚ :=
  d.bars.map (fun b => b.volume)

/-! ### C1: the EMA recurrence -/

/-- Recurrence asserted by claim C1, at one data set `d` and one step
`i → i+1`: with `price = Close_for_calc`, every EMA column of
`compute_indicators` starts at `price[0]` and obeys
`ema[i+1] = α·price[i+1] + (1-α)·ema[i]` with `α = 2/(span+1)` for its
span, the MACD smoothings included (`DEA` smooths `DIF`). -/
def EmaRecurrenceAt (d : RawData) (i : ℕ) : Prop :=
  let p := close_for_calc d
  let ind := compute_indicators p (volumes d)
  let exp12 := ewma (2 / 13) p
  let exp26 := ewma (2 / 27) p
  (ind.ema10.getD 0 0 = p.getD 0 0 ∧ ind.ema30.getD 0 0 = p.getD 0 0 ∧
    ind.ema40.getD 0 0 = p.getD 0 0 ∧ exp12.getD 0 0 = p.getD 0 0 ∧
    exp26.getD 0 0 = p.getD 0 0 ∧ ind.dea.getD 0 0 = ind.dif.getD 0 0) ∧
  ind.ema10.getD (i + 1) 0 =
    2 / 11 * p.getD (i + 1) 0 + (1 - 2 / 11) * ind.ema10.getD i 0 ∧
  ind.ema30.getD (i + 1) 0 =
    2 / 31 * p.getD (i + 1) 0 + (1 - 2 / 31) * ind.ema30.getD i 0 ∧
  ind.ema40.getD (i + 1) 0 =
    2 / 41 * p.getD (i + 1) 0 + (1 - 2 / 41) * ind.ema40.getD i 0 ∧
  exp12.getD (i + 1) 0 =
    2 / 13 * p.getD (i + 1) 0 + (1 - 2 / 13) * exp12.getD i 0 ∧
  exp26.getD (i + 1) 0 =
    2 / 27 * p.getD (i + 1) 0 + (1 - 2 / 27) * exp26.getD i 0 ∧
  ind.dea.getD (i + 1) 0 =
    2 / 10 * ind.dif.getD (i + 1) 0 + (1 - 2 / 10) * ind.dea.getD i 0

/-- C1: for every downloaded data set and every in-range step, the EMA
series produced by `compute_indicators` (spans 10/30/40 on the adjusted
close when available, the close otherwise; MACD spans 12/26 on the same
price and 9 on `DIF`) satisfy `ema[0] = price[0]` and
`ema[i+1] = α·price[i+1] + (1-α)·ema[i]` with `α = 2/(span+1)`. -/
theorem ema_recurrence_spec (d : RawData) (i : ℕ)
    (h : i + 1 < (close_for_calc d).length) : EmaRecurrenceAt d i := by
  simp only [EmaRecurrenceAt]
  set p := close_for_calc d with hp
  have hpos : 0 < p.length := by omega
  have hdif : (compute_indicators p (volumes d)).dif.length = p.length := by
    rw [compute_indicators_dif]
    simp
  refine ⟨⟨?_, ?_, ?_, ?_, ?_, ?_⟩, ?_, ?_, ?_, ?_, ?_, ?_⟩
  · rw [compute_indicators_ema10]; exact ewma_getD_zero' _ _ hpos
  · rw [compute_indicators_ema30]; exact ewma_getD_zero' _ _ hpos
  · rw [compute_indicators_ema40]; exact ewma_getD_zero' _ _ hpos
  · exact ewma_getD_zero' _ _ hpos
  · exact ewma_getD_zero' _ _ hpos
  · rw [compute_indicators_dea, ← compute_indicators_dif p (volumes d)]
    exact ewma_getD_zero' _ _ (by rw [hdif]; omega)
  · rw [compute_indicators_ema10]; exact ewma_getD_succ _ _ _ (by simpa using h)
  · rw [compute_indicators_ema30]; exact ewma_getD_succ _ _ _ (by simpa using h)
  · rw [compute_indicators_ema40]; exact ewma_getD_succ _ _ _ (by simpa using h)
  · exact ewma_getD_succ _ _ _ (by simpa using h)
  · exact ewma_getD_succ _ _ _ (by simpa using h)
  · rw [compute_indicators_dea, ← compute_indicators_dif p (volumes d)]
    exact ewma_getD_succ _ _ _ (by rw [hdif]; exact h)

/-- Concrete three-bar data set with an `Adj Close` column, used to
instantiate hypotheses at explicit inputs. -/
def sampleRaw : RawData :=
  { bars :=
      [ { date := 0, opn := 1, high := 3, low := 1, close := 2, volume := 50 },
        { date := 1, opn := 2, high := 5, low := 2, close := 4, volume := 60 },
        { date := 2, opn := 4, high := 9, low := 3, close := 8, volume := 70 } ]
    adjClose := some [2, 4, 8] }

theorem ema_recurrence_spec_witness : EmaRecurrenceAt sampleRaw 1 :=
  ema_recurrence_spec sampleRaw 1 (by simp [close_for_calc, sampleRaw])

/-! ### C2: no lookahead -/

theorem compute_indicators_take (c v : List ℚ) (k : ℕ) :
    compute_indicators (c.take k) (v.take k) =
      { ema10 := (compute_indicators c v).ema10.take k
        ema30 := (compute_indicators c v).ema30.take k
        ema40 := (compute_indicators c v).ema40.take k
        dif := (compute_indicators c v).dif.take k
        dea := (compute_indicators c v).dea.take k
        hist := (compute_indicators c v).hist.take k
        rsi := (compute_indicators c v).rsi.take k
        volMa20 := (compute_indicators c v).volMa20.take k } := by
  simp only [compute_indicators]
  simp only [ewma_take, diffW_take, posDeltas_take, negDeltas_take, rollingMean_take,
    ← List.take_zipWith]

/-- Statement of claim C2 at index `i`: every indicator column of
`compute_indicators` has the same entry at `i` whether computed on the
full input or on the input truncated after bar `i`. -/
def NoLookaheadAt (close volume : List ℚ) (i : ℕ) : Prop :=
  let ind := compute_indicators close volume
  let trunc := compute_indicators (close.take (i + 1)) (volume.take (i + 1))
  trunc.ema10[i]? = ind.ema10[i]? ∧ trunc.ema30[i]? = ind.ema30[i]? ∧
  trunc.ema40[i]? = ind.ema40[i]? ∧ trunc.dif[i]? = ind.dif[i]? ∧
  trunc.dea[i]? = ind.dea[i]? ∧ trunc.hist[i]? = ind.hist[i]? ∧
  trunc.rsi[i]? = ind.rsi[i]? ∧ trunc.volMa20[i]? = ind.volMa20[i]?

/-- C2: indicator values at bar `i` (EMA10/30/40, DIF, DEA, MACD
histogram, RSI, 20-bar volume average) depend only on bars `0..i`:
truncating the inputs after bar `i` leaves every entry at `i`
unchanged. -/
theorem indicators_no_lookahead (close volume : List ℚ) (i : ℕ) :
    NoLookaheadAt close volume i := by
  simp only [NoLookaheadAt]
  rw [compute_indicators_take]
  have ht : ∀ {β : Type} (X : List β), (X.take (i + 1))[i]? = X[i]? := by
    intro β X
    rw [List.getElem?_take, if_pos (Nat.lt_succ_self i)]
  exact ⟨ht _, ht _, ht _, ht _, ht _, ht _, ht _, ht _⟩

/-! ### Constant price series: MACD histogram and RSI (claim C3) -/

theorem replicate_getD {α : Type*} (n : ℕ) (q : α) (i : ℕ) (d : α) (h : i < n) :
    (List.replicate n q).getD i d = q := by
  rw [List.getD_eq_getElem?_getD, List.getElem?_replicate, if_pos h]
  rfl

theorem replicate_zero_getD (n i : ℕ) : (List.replicate n (0:ℚ)).getD i 0 = 0 := by
  by_cases h : i < n
  · rw [replicate_getD _ _ _ _ h]
  · rw [List.getD_eq_getElem?_getD, List.getElem?_eq_none (by simp; omega)]
    rfl

theorem map_clip_diffW_replicate (f : Option ℚ → ℚ) (hf0 : f none = 0)
    (hfz : f (some 0) = 0) (n : ℕ) (q : ℚ) :
    (diffW (List.replicate n q)).map f = List.replicate n (0:ℚ) := by
  apply List.ext_getElem?
  intro i
  by_cases h : i < n
  · rw [List.getElem?_map, diffW_getElem? _ _ (by simp [h]),
      List.getElem?_replicate, if_pos h]
    rcases Nat.eq_zero_or_pos i with hz | hpos
    · simp [hz, hf0]
    · have hi0 : i ≠ 0 := Nat.pos_iff_ne_zero.mp hpos
      rw [if_neg hi0, replicate_getD _ _ _ _ h, replicate_getD _ _ _ _ (by omega)]
      simpa using hfz
  · rw [List.getElem?_eq_none (by simp; omega), List.getElem?_eq_none (by simp; omega)]

theorem posDeltas_diffW_replicate (n : ℕ) (q : ℚ) :
    posDeltas (diffW (List.replicate n q)) = List.replicate n (0:ℚ) := by
  apply map_clip_diffW_replicate
  · rfl
  · simp [posClip]

theorem negDeltas_diffW_replicate (n : ℕ) (q : ℚ) :
    negDeltas (diffW (List.replicate n q)) = List.replicate n (0:ℚ) := by
  apply map_clip_diffW_replicate
  · rfl
  · simp [negClip]

theorem getElem?_zipWith_of_lt {α β γ : Type*} (f : α → β → γ) (a : List α)
    (b : List β) (i : ℕ) (ha : i < a.length) (hb : i < b.length) :
    (List.zipWith f a b)[i]? = some (f (a.get ⟨i, ha⟩) (b.get ⟨i, hb⟩)) := by
  have hz : i < (List.zipWith f a b).length := by
    rw [List.length_zipWith]
    omega
  rw [List.getElem?_eq_getElem hz, List.getElem_zipWith]
  rfl

theorem rollingMean_replicate_zero_getElem (w m n i : ℕ) (h : i < n)
    (hmi : m ≤ min (i + 1) w) (hchk : i < (rollingMean w m (List.replicate n (0:ℚ))).length) :
    (rollingMean w m (List.replicate n (0:ℚ))).get ⟨i, hchk⟩ = some 0 := by
  have h? := rollingMean_getElem? w m (List.replicate n (0:ℚ)) i (by simp [h])
  rw [List.take_replicate, List.drop_replicate] at h?
  have hlen : (List.replicate (min (i + 1) n - (i + 1 - w)) (0:ℚ)).length = min (i + 1) w := by
    simp
    omega
  rw [List.getElem?_eq_getElem hchk] at h?
  have := Option.some.inj h?
  rw [List.get_eq_getElem, this, hlen, if_pos hmi]
  have hsum : (List.replicate (min (i + 1) n - (i + 1 - w)) (0:ℚ)).sum = 0 := by
    simp
  rw [hsum]
  simp

theorem rsi_const_nan (n : ℕ) (q : ℚ) (v : List ℚ) (i : ℕ)
    (h13 : 13 ≤ i) (hin : i < n) :
    (compute_indicators (List.replicate n q) v).rsi[i]? = some none := by
  rw [compute_indicators_rsi, posDeltas_diffW_replicate, negDeltas_diffW_replicate]
  have hl : i < (rollingMean 14 14 (List.replicate n (0:ℚ))).length := by simp [hin]
  rw [getElem?_zipWith_of_lt rsiCombine _ _ i hl hl]
  rw [rollingMean_replicate_zero_getElem 14 14 n i hin (by omega) hl]
  simp [rsiCombine]

theorem zipWith_sub_self (x : List ℚ) :
    List.zipWith (fun a b => a - b) x x = List.replicate x.length 0 := by
  induction x with
  | nil => rfl
  | cons a xs ih => simp [List.replicate_succ, ih]

theorem hist_const (n : ℕ) (q : ℚ) (v : List ℚ) :
    (compute_indicators (List.replicate n q) v).hist = List.replicate n (0:ℚ) := by
  rw [compute_indicators_hist, compute_indicators_dif, compute_indicators_dea,
    ewma_replicate, ewma_replicate, zipWith_sub_self, List.length_replicate,
    ewma_replicate, zipWith_sub_self, List.length_replicate]

/-- Behaviour of `compute_indicators` on a constant price series
`replicate n q`, at row `i`: the MACD histogram entry is 0 and the RSI
entry is `NaN`. -/
def ConstSeriesStatus (n : ℕ) (q : ℚ) (volume : List ℚ) (i : ℕ) : Prop :=
  (compute_indicators (List.replicate n q) volume).hist.getD i 0 = 0 ∧
  (compute_indicators (List.replicate n q) volume).rsi[i]? = some none

/-- C3 counterexample: on the constant series of twenty bars at price 5
the RSI entry at row 19 — past the 14-bar warm-up — is `NaN`
(`gain/loss` is the float `0/0`), so it is not a well-defined value as
the claim asserts. -/
theorem rsi_constant_counterexample :
    (compute_indicators (List.replicate 20 (5:ℚ)) (List.replicate 20 (1:ℚ))).rsi[19]? =
      some none :=
  rsi_const_nan 20 5 (List.replicate 20 1) 19 (by decide) (by decide)

/-- C3 (amended): for every constant price series the MACD histogram is
exactly 0 at every row — in particular after warm-up — and no
division-by-zero exception occurs, but the RSI entry after the 14-bar
warm-up is `NaN` (average gain and loss are both zero and pandas turns
`0/0` into `NaN`), not a well-defined number. -/
theorem macd_hist_constant_rsi_nan (n : ℕ) (q : ℚ) (volume : List ℚ) (i : ℕ)
    (h13 : 13 ≤ i) (hin : i < n) : ConstSeriesStatus n q volume i := by
  constructor
  · rw [hist_const, replicate_zero_getD]
  · exact rsi_const_nan n q volume i h13 hin

theorem macd_hist_constant_rsi_nan_witness :
    ConstSeriesStatus 20 5 (List.replicate 20 1) 19 :=
  macd_hist_constant_rsi_nan 20 5 (List.replicate 20 1) 19 (by decide) (by decide)


/-! ### C4: the trend classifier -/

/-- Characterisation claimed by C4: writing `n` for the number of rows,
`lb` for the slope lookback row (`n-5`, or row 0 when fewer than 6 rows
exist) and `s10`, `s30` for the EMA10/EMA30 slopes (last value minus
value at `lb`), the classifier answers bullish exactly for
`EMA10 > EMA30 > EMA40` with both slopes positive, bearish exactly for
the reversed ordering with negative EMA10 slope, and the mixed label
exactly otherwise. -/
def TrendSpec (e10 e30 e40 : List ℚ) : Prop :=
  let n := e10.length
  let lb := if 6 ≤ n then n - 5 else 0
  let a10 := e10.getD (n - 1) 0
  let a30 := e30.getD (n - 1) 0
  let a40 := e40.getD (n - 1) 0
  let s10 := a10 - e10.getD lb 0
  let s30 := a30 - e30.getD lb 0
  (overall_trend_text e10 e30 e40 = "中期趨勢仍偏多（均線多頭排列且向上）" ↔
    (a10 > a30 ∧ a30 > a40 ∧ s10 > 0 ∧ s30 > 0)) ∧
  (overall_trend_text e10 e30 e40 = "中期偏空（均線空頭排列）" ↔
    (a10 < a30 ∧ a30 < a40 ∧ s10 < 0)) ∧
  (overall_trend_text e10 e30 e40 = "趨勢分歧或整理（需關注均線與量能）" ↔
    (¬(a10 > a30 ∧ a30 > a40 ∧ s10 > 0 ∧ s30 > 0) ∧
     ¬(a10 < a30 ∧ a30 < a40 ∧ s10 < 0)))

/-- C4: the trend classifier returns the bullish label exactly when
`EMA10 > EMA30 > EMA40` at the last bar and both 5-bar slopes are
positive, the bearish label exactly when the ordering is reversed and
the EMA10 slope is negative, and the mixed/consolidating label
otherwise; when fewer than 6 bars exist the slope lookback uses the
first bar. -/
theorem overall_trend_spec (e10 e30 e40 : List ℚ) : TrendSpec e10 e30 e40 := by
  have hs1 : ("中期趨勢仍偏多（均線多頭排列且向上）" : String) ≠ "中期偏空（均線空頭排列）" := by decide
  have hs2 : ("中期趨勢仍偏多（均線多頭排列且向上）" : String) ≠ "趨勢分歧或整理（需關注均線與量能）" := by decide
  have hs3 : ("中期偏空（均線空頭排列）" : String) ≠ "趨勢分歧或整理（需關注均線與量能）" := by decide
  by_cases h6 : 6 ≤ e10.length
  all_goals
    first
      | simp only [TrendSpec, overall_trend_text, if_pos h6]
      | simp only [TrendSpec, overall_trend_text, if_neg h6]
  all_goals split_ifs with h1 h2
  all_goals
    first
    | exact ⟨Iff.intro (fun _ => h1) (fun _ => rfl),
        Iff.intro (fun hh => absurd hh hs1) (fun hh => absurd h1.1 (lt_asymm hh.1)),
        Iff.intro (fun hh => absurd hh hs2) (fun hh => absurd h1 hh.1)⟩
    | exact ⟨Iff.intro (fun hh => absurd hh.symm hs1) (fun hh => absurd hh h1),
        Iff.intro (fun _ => h2) (fun _ => rfl),
        Iff.intro (fun hh => absurd hh hs3) (fun hh => absurd h2 hh.2)⟩
    | exact ⟨Iff.intro (fun hh => absurd hh.symm hs2) (fun hh => absurd hh h1),
        Iff.intro (fun hh => absurd hh.symm hs3) (fun hh => absurd hh h2),
        Iff.intro (fun _ => ⟨h1, h2⟩) (fun _ => rfl)⟩

/-! ### C5: the MACD status -/

theorem macd_status_histTrend (difs deas hists : List ℚ) :
    (macd_status difs deas hists).histTrend =
      if (if 3 ≤ difs.length then
            hists.getD (difs.length - 1) 0 > hists.getD (difs.length - 3) 0
          else hists.getD (difs.length - 1) 0 > 0) then "上升"
      else "下降或收斂" := rfl

theorem macd_status_cross (difs deas hists : List ℚ) :
    (macd_status difs deas hists).cross =
      if 2 ≤ difs.length then
        if difs.getD (difs.length - 1) 0 > deas.getD (difs.length - 1) 0 ∧
            difs.getD (difs.length - 2) 0 ≤ deas.getD (difs.length - 2) 0 then
          "（近期出現 MACD 黃金交叉）"
        else if difs.getD (difs.length - 1) 0 < deas.getD (difs.length - 1) 0 ∧
            difs.getD (difs.length - 2) 0 ≥ deas.getD (difs.length - 2) 0 then
          "（近期出現 MACD 死亡交叉）"
        else ""
      else "" := rfl

/-- Characterisation claimed by C5, over the `DIF`/`DEA`/`MACD_hist`
columns with `n` rows: the histogram trend is labelled rising exactly
when the last value exceeds the value two rows back (the last value
compared against 0 instead when fewer than 3 rows exist); a golden
(resp. death) cross is reported exactly when `DIF − DEA` moves from
non-positive to positive (resp. non-negative to negative) between the
last two rows, and no cross is reported otherwise. -/
def MacdSpec (difs deas hists : List ℚ) : Prop :=
  let n := difs.length
  let st := macd_status difs deas hists
  (st.histTrend = "上升" ↔
    ((3 ≤ n ∧ hists.getD (n - 1) 0 > hists.getD (n - 3) 0) ∨
     (n < 3 ∧ hists.getD (n - 1) 0 > 0))) ∧
  (st.cross = "（近期出現 MACD 黃金交叉）" ↔
    (2 ≤ n ∧ difs.getD (n - 2) 0 - deas.getD (n - 2) 0 ≤ 0 ∧
      0 < difs.getD (n - 1) 0 - deas.getD (n - 1) 0)) ∧
  (st.cross = "（近期出現 MACD 死亡交叉）" ↔
    (2 ≤ n ∧ 0 ≤ difs.getD (n - 2) 0 - deas.getD (n - 2) 0 ∧
      difs.getD (n - 1) 0 - deas.getD (n - 1) 0 < 0)) ∧
  (st.cross = "" ↔
    (¬(2 ≤ n ∧ difs.getD (n - 2) 0 - deas.getD (n - 2) 0 ≤ 0 ∧
        0 < difs.getD (n - 1) 0 - deas.getD (n - 1) 0) ∧
     ¬(2 ≤ n ∧ 0 ≤ difs.getD (n - 2) 0 - deas.getD (n - 2) 0 ∧
        difs.getD (n - 1) 0 - deas.getD (n - 1) 0 < 0)))

/-- C5: the MACD status labels the histogram trend rising exactly when
the current histogram value exceeds the value 2 bars back, degrading to
a current-value-versus-0 check for fewer than 3 bars; it reports a
golden (resp. death) cross exactly when `DIF − DEA` changes sign from
non-positive to positive (resp. non-negative to negative) between the
last two bars, and no cross otherwise. -/
theorem macd_status_spec (difs deas hists : List ℚ) : MacdSpec difs deas hists := by
  have t1 : ("下降或收斂" : String) ≠ "上升" := by decide
  have t2 : ("（近期出現 MACD 黃金交叉）" : String) ≠ "（近期出現 MACD 死亡交叉）" := by decide
  have t3 : ("（近期出現 MACD 黃金交叉）" : String) ≠ "" := by decide
  have t4 : ("（近期出現 MACD 死亡交叉）" : String) ≠ "" := by decide
  refine ⟨?_, ?_, ?_, ?_⟩
  · rw [macd_status_histTrend]
    split_ifs with h3 hA hB
    · exact Iff.intro (fun _ => Or.inl ⟨h3, hA⟩) (fun _ => rfl)
    · refine Iff.intro (fun hh => absurd hh t1) (fun hh => ?_)
      rcases hh with ⟨_, a⟩ | ⟨l, _⟩
      · exact absurd a hA
      · exact absurd h3 (Nat.not_le.mpr l)
    · exact Iff.intro (fun _ => Or.inr ⟨Nat.not_le.mp h3, hB⟩) (fun _ => rfl)
    · refine Iff.intro (fun hh => absurd hh t1) (fun hh => ?_)
      rcases hh with ⟨a, _⟩ | ⟨_, b⟩
      · exact absurd a h3
      · exact absurd b hB
  · rw [macd_status_cross]
    split_ifs with h2 hG hD
    · exact Iff.intro
        (fun _ => ⟨h2, sub_nonpos.mpr hG.2, sub_pos.mpr hG.1⟩) (fun _ => rfl)
    · refine Iff.intro (fun hh => absurd hh t2.symm) (fun hh => ?_)
      exact absurd ⟨sub_pos.mp hh.2.2, sub_nonpos.mp hh.2.1⟩ hG
    · refine Iff.intro (fun hh => absurd hh t3.symm) (fun hh => ?_)
      exact absurd ⟨sub_pos.mp hh.2.2, sub_nonpos.mp hh.2.1⟩ hG
    · refine Iff.intro (fun hh => absurd hh t3.symm) (fun hh => ?_)
      exact absurd hh.1 h2
  · rw [macd_status_cross]
    split_ifs with h2 hG hD
    · refine Iff.intro (fun hh => absurd hh t2) (fun hh => ?_)
      exact absurd (sub_neg.mp hh.2.2) (lt_asymm hG.1)
    · exact Iff.intro
        (fun _ => ⟨h2, sub_nonneg.mpr hD.2, sub_neg.mpr hD.1⟩) (fun _ => rfl)
    · refine Iff.intro (fun hh => absurd hh t4.symm) (fun hh => ?_)
      exact absurd ⟨sub_neg.mp hh.2.2, sub_nonneg.mp hh.2.1⟩ hD
    · refine Iff.intro (fun hh => absurd hh t4.symm) (fun hh => ?_)
      exact absurd hh.1 h2
  · rw [macd_status_cross]
    split_ifs with h2 hG hD
    · refine Iff.intro (fun hh => absurd hh t3) (fun hh => ?_)
      exact absurd ⟨h2, sub_nonpos.mpr hG.2, sub_pos.mpr hG.1⟩ hh.1
    · refine Iff.intro (fun hh => absurd hh t4) (fun hh => ?_)
      exact absurd ⟨h2, sub_nonneg.mpr hD.2, sub_neg.mpr hD.1⟩ hh.2
    · refine Iff.intro (fun _ => ⟨fun g => ?_, fun d => ?_⟩) (fun _ => rfl)
      · exact absurd ⟨sub_pos.mp g.2.2, sub_nonpos.mp g.2.1⟩ hG
      · exact absurd ⟨sub_neg.mp d.2.2, sub_nonneg.mp d.2.1⟩ hD
    · refine Iff.intro (fun _ => ⟨fun g => absurd g.1 h2, fun d => absurd d.1 h2⟩)
        (fun _ => rfl)

/-! ### C10, C6: doji bars and wick suffixes -/

/-- C10: a bar with zero body (`open = close`) and equal strictly
positive upper and lower wicks is classified as the bare
doji/small-body label: every refinement comparison is strict, so the
equal-wick tie adds no suffix. -/
theorem doji_equal_wicks (o h l c : ℚ) (hoc : o = c)
    (heq : h - max c o = min c o - l) (hpos : 0 < min c o - l) :
    classify_candle o h l c = "十字/小實體（盤整）" := by
  subst hoc
  simp only [classify_candle, max_self, min_self, sub_self, abs_zero, zero_mul,
    zero_div, ite_self] at heq hpos ⊢
  have h1 : ¬(o - l > 0 ∧ o - l > h - o) := by
    rintro ⟨_, hx⟩
    rw [heq] at hx
    exact lt_irrefl _ hx
  have h2 : ¬(h - o > 0 ∧ h - o > o - l) := by
    rintro ⟨_, hx⟩
    rw [heq] at hx
    exact lt_irrefl _ hx
  rw [if_neg h1, if_neg h2, if_neg (by norm_num : ¬((0:ℚ) > 7 / 10)),
    if_pos (by norm_num : (0:ℚ) < 15 / 100)]

theorem doji_equal_wicks_witness : classify_candle 5 8 2 5 = "十字/小實體（盤整）" :=
  doji_equal_wicks 5 8 2 5 (by norm_num) (by norm_num) (by norm_num)

/-- C6 counterexample: the zero-body bar `(o,h,l,c) = (9,10,0,9)` has
`open = close` and `high > low`, yet the classifier appends the
long-lower-wick suffix (`lower = 9 > 0 = body·2` and `lower > upper`),
so it does not return the bare doji/small-body label. -/
theorem classify_doji_wick_counterexample :
    classify_candle 9 10 0 9 = "十字/小實體（盤整），長下影（可能支撐或吸籌）" ∧
    "十字/小實體（盤整），長下影（可能支撐或吸籌）" ≠ "十字/小實體（盤整）" := by
  constructor
  · norm_num [classify_candle]
    rfl
  · decide

/-- C6 (amended): for a bar with `open = close` and `high > low` the
label starts with doji/small-body, and a wick suffix is appended
exactly for the strictly larger wick: long-lower-wick when
`lower > upper`, long-upper-wick when `upper > lower`, and no suffix
only when the two wicks are equal. -/
theorem classify_doji_spec (o h l c : ℚ) (hoc : o = c) (hhl : l < h) :
    classify_candle o h l c =
      (if min c o - l > h - max c o then "十字/小實體（盤整）" ++ "，長下影（可能支撐或吸籌）"
       else if h - max c o > min c o - l then "十字/小實體（盤整）" ++ "，長上影（可能壓力或獲利了結）"
       else "十字/小實體（盤整）") := by
  subst hoc
  simp only [classify_candle, max_self, min_self, sub_self, abs_zero, zero_mul,
    zero_div, ite_self] at hhl ⊢
  have hsum : (o - l) + (h - o) = h - l := by ring
  rcases lt_trichotomy (o - l) (h - o) with hA | hB | hC
  · have hA2 : h - o > 0 := by nlinarith
    rw [if_neg (by rintro ⟨_, hx⟩; exact absurd hA (lt_asymm hx)),
      if_pos ⟨hA2, hA⟩, if_neg (lt_asymm hA), if_pos hA,
      if_pos (by norm_num : (0:ℚ) < 15 / 100)]
  · have hn1 : ¬(o - l > 0 ∧ o - l > h - o) := by
      rintro ⟨_, hx⟩
      rw [hB] at hx
      exact lt_irrefl _ hx
    have hn2 : ¬(h - o > 0 ∧ h - o > o - l) := by
      rintro ⟨_, hx⟩
      rw [hB] at hx
      exact lt_irrefl _ hx
    have hr1 : ¬(o - l > h - o) := by
      rw [hB]
      exact lt_irrefl _
    have hr2 : ¬(h - o > o - l) := by
      rw [hB]
      exact lt_irrefl _
    rw [if_neg hn1, if_neg hn2, if_neg (by norm_num : ¬((0:ℚ) > 7 / 10)),
      if_neg hr1, if_neg hr2, if_pos (by norm_num : (0:ℚ) < 15 / 100)]
  · have hC2 : o - l > 0 := by nlinarith
    rw [if_pos ⟨hC2, hC⟩, if_pos hC, if_pos (by norm_num : (0:ℚ) < 15 / 100)]

theorem classify_doji_spec_witness :
    classify_candle 9 10 0 9 =
      (if min (9:ℚ) 9 - 0 > 10 - max (9:ℚ) 9 then "十字/小實體（盤整）" ++ "，長下影（可能支撐或吸籌）"
       else if 10 - max (9:ℚ) 9 > min (9:ℚ) 9 - 0 then "十字/小實體（盤整）" ++ "，長上影（可能壓力或獲利了結）"
       else "十字/小實體（盤整）") :=
  classify_doji_spec 9 10 0 9 (by norm_num) (by norm_num)

/-! ### C8: scaling the candle -/

/-- C8 counterexample: scaling the bar `(0,1,0,1)` by the positive
constant `k = 10⁻⁹` changes the label: the original bar is a bullish
candle with the long-body suffix (body ratio `1/(1+10⁻⁹) > 0.7`), while
the scaled bar's body ratio is `10⁻⁹/(2·10⁻⁹) = 1/2` because of the
`1e-9` epsilon in the denominator, dropping the suffix. -/
theorem classify_scaling_counterexample :
    (0:ℚ) < 1 / 1000000000 ∧
    classify_candle (1 / 1000000000 * 0) (1 / 1000000000 * 1)
        (1 / 1000000000 * 0) (1 / 1000000000 * 1) ≠
      classify_candle 0 1 0 1 := by
  constructor
  · norm_num
  · norm_num [classify_candle, abs_of_pos]
    decide

/-- C8 (amended): the classifier is scale-invariant except for the
`1e-9` epsilon in the body-ratio denominator: the epsilon-free variant
returns the same shape label for `(k·o, k·h, k·l, k·c)` as for
`(o,h,l,c)`, for every positive `k`. -/
theorem classify_candle_exact_scale (o h l c k : ℚ) (hk : 0 < k) :
    classify_candle_exact (k * o) (k * h) (k * l) (k * c) =
      classify_candle_exact o h l c := by
  have habs : |k * c - k * o| = k * |c - o| := by
    rw [← mul_sub, abs_mul, abs_of_pos hk]
  have hmax : max (k * c) (k * o) = k * max c o := by
    rcases le_total c o with hco | hco
    · rw [max_eq_right hco, max_eq_right (mul_le_mul_of_nonneg_left hco hk.le)]
    · rw [max_eq_left hco, max_eq_left (mul_le_mul_of_nonneg_left hco hk.le)]
  have hmin : min (k * c) (k * o) = k * min c o := by
    rcases le_total c o with hco | hco
    · rw [min_eq_left hco, min_eq_left (mul_le_mul_of_nonneg_left hco hk.le)]
    · rw [min_eq_right hco, min_eq_right (mul_le_mul_of_nonneg_left hco hk.le)]
  simp only [classify_candle_exact, habs, hmax, hmin]
  rw [show k * h - k * l = k * (h - l) by ring,
    show k * h - k * max c o = k * (h - max c o) by ring,
    show k * min c o - k * l = k * (min c o - l) by ring,
    show k * |c - o| * 2 = k * (|c - o| * 2) by ring]
  have hratio : (if k * (h - l) > 0 then k * |c - o| / (k * (h - l)) else 0) =
      (if h - l > 0 then |c - o| / (h - l) else 0) := by
    by_cases hf : h - l > 0
    · rw [if_pos (mul_pos hk hf), if_pos hf, mul_div_mul_left _ _ (ne_of_gt hk)]
    · have : ¬(k * (h - l) > 0) := by
        intro hx
        exact hf (by nlinarith)
      rw [if_neg this, if_neg hf]
  rw [hratio]
  have hcmp : ∀ a b : ℚ, (k * a > k * b) ↔ (a > b) := by
    intro a b
    constructor <;> intro hx <;> nlinarith
  simp only [hcmp]

theorem classify_candle_exact_scale_witness :
    classify_candle_exact (2 * 1) (2 * 5) (2 * 0) (2 * 4) =
      classify_candle_exact 1 5 0 4 :=
  classify_candle_exact_scale 1 5 0 4 2 (by norm_num)

/-! ### Soundness of the idxmax / idxmin scans (for claim C7) -/

theorem idxmaxGo_sound (xs : List (Option ℚ)) :
    ∀ (i : ℕ) (acc : Option (ℕ × ℚ)) (j : ℕ) (v : ℚ),
    idxmaxGo i acc xs = some (j, v) →
    ((acc = some (j, v) ∨
        ∃ off, off < xs.length ∧ j = i + off ∧ xs.getD off none = some v) ∧
     (∀ k m, acc = some (k, m) → m ≤ v) ∧
     (∀ off w, off < xs.length → xs.getD off none = some w → w ≤ v)) := by
  induction xs with
  | nil =>
    intro i acc j v hrun
    simp only [idxmaxGo] at hrun
    refine ⟨Or.inl hrun, ?_, ?_⟩
    · intro k m hacc
      rw [hrun] at hacc
      cases Option.some.inj hacc
      exact le_refl v
    · intro off w hoff
      simp at hoff
  | cons x xs ih =>
    intro i acc j v hrun
    have shift : (∃ off, off < xs.length ∧ j = (i + 1) + off ∧ xs.getD off none = some v) →
        ∃ off, off < (x :: xs).length ∧ j = i + off ∧ (x :: xs).getD off none = some v := by
      rintro ⟨off, h1, h2, h3⟩
      exact ⟨off + 1, by simpa using h1, by omega, by simpa using h3⟩
    have shiftC : (∀ off w, off < xs.length → xs.getD off none = some w → w ≤ v) →
        ∀ off w, off < (x :: xs).length → x = none → (x :: xs).getD off none = some w → w ≤ v := by
      intro hC off w hoff hx hget
      cases off with
      | zero => rw [hx] at hget; cases hget
      | succ o => exact hC o w (by simpa using hoff) (by simpa using hget)
    cases x with
    | none =>
      simp only [idxmaxGo] at hrun
      obtain ⟨hA, hB, hC⟩ := ih (i + 1) acc j v hrun
      refine ⟨?_, hB, ?_⟩
      · rcases hA with h | h
        · exact Or.inl h
        · exact Or.inr (shift h)
      · exact fun off w hoff hget => shiftC hC off w hoff rfl hget
    | some v0 =>
      cases acc with
      | none =>
        simp only [idxmaxGo] at hrun
        obtain ⟨hA, hB, hC⟩ := ih (i + 1) (some (i, v0)) j v hrun
        have hv0 : v0 ≤ v := hB i v0 rfl
        refine ⟨?_, ?_, ?_⟩
        · rcases hA with h | h
          · cases Option.some.inj h
            exact Or.inr ⟨0, by simp, by omega, by simp⟩
          · exact Or.inr (shift h)
        · intro k m hacc
          cases hacc
        · intro off w hoff hget
          cases off with
          | zero =>
            simp at hget
            rw [← hget]
            exact hv0
          | succ o => exact hC o w (by simpa using hoff) (by simpa using hget)
      | some jm =>
        obtain ⟨k0, m0⟩ := jm
        by_cases hlt : m0 < v0
        · simp only [idxmaxGo, if_pos hlt] at hrun
          obtain ⟨hA, hB, hC⟩ := ih (i + 1) (some (i, v0)) j v hrun
          have hv0 : v0 ≤ v := hB i v0 rfl
          refine ⟨?_, ?_, ?_⟩
          · rcases hA with h | h
            · cases Option.some.inj h
              exact Or.inr ⟨0, by simp, by omega, by simp⟩
            · exact Or.inr (shift h)
          · intro k m hacc
            cases Option.some.inj hacc
            exact le_trans (le_of_lt hlt) hv0
          · intro off w hoff hget
            cases off with
            | zero =>
              simp at hget
              rw [← hget]
              exact hv0
            | succ o => exact hC o w (by simpa using hoff) (by simpa using hget)
        · simp only [idxmaxGo, if_neg hlt] at hrun
          obtain ⟨hA, hB, hC⟩ := ih (i + 1) (some (k0, m0)) j v hrun
          have hm0 : m0 ≤ v := hB k0 m0 rfl
          refine ⟨?_, ?_, ?_⟩
          · rcases hA with h | h
            · exact Or.inl h
            · exact Or.inr (shift h)
          · intro k m hacc
            cases Option.some.inj hacc
            exact hm0
          · intro off w hoff hget
            cases off with
            | zero =>
              simp at hget
              rw [← hget]
              exact le_trans (le_of_not_lt hlt) hm0
            | succ o => exact hC o w (by simpa using hoff) (by simpa using hget)

theorem idxmaxGo_ne_none_of_acc (xs : List (Option ℚ)) :
    ∀ (i : ℕ) (p : ℕ × ℚ), idxmaxGo i (some p) xs ≠ none := by
  induction xs with
  | nil => intro i p h; cases h
  | cons x xs ih =>
    intro i p
    cases x with
    | none => exact ih (i + 1) p
    | some v0 =>
      by_cases hlt : p.2 < v0
      · simp only [idxmaxGo, if_pos hlt]
        exact ih (i + 1) (i, v0)
      · simp only [idxmaxGo, if_neg hlt]
        exact ih (i + 1) p

theorem idxmaxGo_ne_none (xs : List (Option ℚ)) :
    ∀ (i : ℕ) (acc : Option (ℕ × ℚ)) (off : ℕ), off < xs.length →
    xs.getD off none ≠ none → idxmaxGo i acc xs ≠ none := by
  induction xs with
  | nil =>
    intro i acc off hoff
    simp at hoff
  | cons x xs ih =>
    intro i acc off hoff hget
    cases x with
    | none =>
      cases off with
      | zero => simp at hget
      | succ o =>
        simp only [idxmaxGo]
        exact ih (i + 1) acc o (by simpa using hoff) (by simpa using hget)
    | some v0 =>
      cases acc with
      | none => exact idxmaxGo_ne_none_of_acc xs (i + 1) (i, v0)
      | some p =>
        by_cases hlt : p.2 < v0
        · simp only [idxmaxGo, if_pos hlt]
          exact idxmaxGo_ne_none_of_acc xs (i + 1) (i, v0)
        · simp only [idxmaxGo, if_neg hlt]
          exact idxmaxGo_ne_none_of_acc xs (i + 1) p

theorem idxmaxO_spec (l : List (Option ℚ)) (j : ℕ) (v : ℚ)
    (h : idxmaxO l = some (j, v)) :
    j < l.length ∧ l.getD j none = some v ∧
      ∀ k w, k < l.length → l.getD k none = some w → w ≤ v := by
  obtain ⟨hA, _, hC⟩ := idxmaxGo_sound l 0 none j v h
  rcases hA with h | ⟨off, h1, h2, h3⟩
  · cases h
  · refine ⟨by omega, by rw [h2]; simpa using h3, hC⟩

theorem idxminGo_sound (xs : List (Option ℚ)) :
    ∀ (i : ℕ) (acc : Option (ℕ × ℚ)) (j : ℕ) (v : ℚ),
    idxminGo i acc xs = some (j, v) →
    ((acc = some (j, v) ∨
        ∃ off, off < xs.length ∧ j = i + off ∧ xs.getD off none = some v) ∧
     (∀ k m, acc = some (k, m) → v ≤ m) ∧
     (∀ off w, off < xs.length → xs.getD off none = some w → v ≤ w)) := by
  induction xs with
  | nil =>
    intro i acc j v hrun
    simp only [idxminGo] at hrun
    refine ⟨Or.inl hrun, ?_, ?_⟩
    · intro k m hacc
      rw [hrun] at hacc
      cases Option.some.inj hacc
      exact le_refl v
    · intro off w hoff
      simp at hoff
  | cons x xs ih =>
    intro i acc j v hrun
    have shift : (∃ off, off < xs.length ∧ j = (i + 1) + off ∧ xs.getD off none = some v) →
        ∃ off, off < (x :: xs).length ∧ j = i + off ∧ (x :: xs).getD off none = some v := by
      rintro ⟨off, h1, h2, h3⟩
      exact ⟨off + 1, by simpa using h1, by omega, by simpa using h3⟩
    cases x with
    | none =>
      simp only [idxminGo] at hrun
      obtain ⟨hA, hB, hC⟩ := ih (i + 1) acc j v hrun
      refine ⟨?_, hB, ?_⟩
      · rcases hA with h | h
        · exact Or.inl h
        · exact Or.inr (shift h)
      · intro off w hoff hget
        cases off with
        | zero => simp at hget
        | succ o => exact hC o w (by simpa using hoff) (by simpa using hget)
    | some v0 =>
      cases acc with
      | none =>
        simp only [idxminGo] at hrun
        obtain ⟨hA, hB, hC⟩ := ih (i + 1) (some (i, v0)) j v hrun
        have hv0 : v ≤ v0 := hB i v0 rfl
        refine ⟨?_, ?_, ?_⟩
        · rcases hA with h | h
          · cases Option.some.inj h
            exact Or.inr ⟨0, by simp, by omega, by simp⟩
          · exact Or.inr (shift h)
        · intro k m hacc
          cases hacc
        · intro off w hoff hget
          cases off with
          | zero =>
            simp at hget
            rw [← hget]
            exact hv0
          | succ o => exact hC o w (by simpa using hoff) (by simpa using hget)
      | some jm =>
        obtain ⟨k0, m0⟩ := jm
        by_cases hlt : v0 < m0
        · simp only [idxminGo, if_pos hlt] at hrun
          obtain ⟨hA, hB, hC⟩ := ih (i + 1) (some (i, v0)) j v hrun
          have hv0 : v ≤ v0 := hB i v0 rfl
          refine ⟨?_, ?_, ?_⟩
          · rcases hA with h | h
            · cases Option.some.inj h
              exact Or.inr ⟨0, by simp, by omega, by simp⟩
            · exact Or.inr (shift h)
          · intro k m hacc
            cases Option.some.inj hacc
            exact le_trans hv0 (le_of_lt hlt)
          · intro off w hoff hget
            cases off with
            | zero =>
              simp at hget
              rw [← hget]
              exact hv0
            | succ o => exact hC o w (by simpa using hoff) (by simpa using hget)
        · simp only [idxminGo, if_neg hlt] at hrun
          obtain ⟨hA, hB, hC⟩ := ih (i + 1) (some (k0, m0)) j v hrun
          have hm0 : v ≤ m0 := hB k0 m0 rfl
          refine ⟨?_, ?_, ?_⟩
          · rcases hA with h | h
            · exact Or.inl h
            · exact Or.inr (shift h)
          · intro k m hacc
            cases Option.some.inj hacc
            exact hm0
          · intro off w hoff hget
            cases off with
            | zero =>
              simp at hget
              rw [← hget]
              exact le_trans hm0 (le_of_not_lt hlt)
            | succ o => exact hC o w (by simpa using hoff) (by simpa using hget)

theorem idxminGo_ne_none_of_acc (xs : List (Option ℚ)) :
    ∀ (i : ℕ) (p : ℕ × ℚ), idxminGo i (some p) xs ≠ none := by
  induction xs with
  | nil => intro i p h; cases h
  | cons x xs ih =>
    intro i p
    cases x with
    | none => exact ih (i + 1) p
    | some v0 =>
      by_cases hlt : v0 < p.2
      · simp only [idxminGo, if_pos hlt]
        exact ih (i + 1) (i, v0)
      · simp only [idxminGo, if_neg hlt]
        exact ih (i + 1) p

theorem idxminGo_ne_none (xs : List (Option ℚ)) :
    ∀ (i : ℕ) (acc : Option (ℕ × ℚ)) (off : ℕ), off < xs.length →
    xs.getD off none ≠ none → idxminGo i acc xs ≠ none := by
  induction xs with
  | nil =>
    intro i acc off hoff
    simp at hoff
  | cons x xs ih =>
    intro i acc off hoff hget
    cases x with
    | none =>
      cases off with
      | zero => simp at hget
      | succ o =>
        simp only [idxminGo]
        exact ih (i + 1) acc o (by simpa using hoff) (by simpa using hget)
    | some v0 =>
      cases acc with
      | none => exact idxminGo_ne_none_of_acc xs (i + 1) (i, v0)
      | some p =>
        by_cases hlt : v0 < p.2
        · simp only [idxminGo, if_pos hlt]
          exact idxminGo_ne_none_of_acc xs (i + 1) (i, v0)
        · simp only [idxminGo, if_neg hlt]
          exact idxminGo_ne_none_of_acc xs (i + 1) p

theorem idxminO_spec (l : List (Option ℚ)) (j : ℕ) (v : ℚ)
    (h : idxminO l = some (j, v)) :
    j < l.length ∧ l.getD j none = some v ∧
      ∀ k w, k < l.length → l.getD k none = some w → v ≤ w := by
  obtain ⟨hA, _, hC⟩ := idxminGo_sound l 0 none j v h
  rcases hA with h | ⟨off, h1, h2, h3⟩
  · cases h
  · refine ⟨by omega, by rw [h2]; simpa using h3, hC⟩

/-! ### C7: the historical-context block -/

@[simp]
theorem length_pctChange (p : List ℚ) : (pctChange p).length = p.length := by
  simp [pctChange]

theorem pctChange_getElem? (p : List ℚ) (i : ℕ) (h : i < p.length) :
    (pctChange p)[i]? =
      some (if i = 0 then none else some (p.getD i 0 / p.getD (i - 1) 0 - 1)) := by
  simp [pctChange, List.getElem?_map, List.getElem?_range, h]

/-- Content claimed by C7 for a frame of 10 or more rows: the block
returns a context value (not the insufficient-data message, and no
exception path is taken), reporting the 10-row cumulative percent price
change, the volume-average shift, and — via the `idxmax`/`idxmin`
soundness facts — the date and percent size of a largest up-move and a
smallest (most negative) move among the daily returns of the trailing
10 rows. -/
def HistContextOk (dates : List ℕ) (close vol : List ℚ)
    (volma : List (Option ℚ)) : Prop :=
  let n := close.length
  let rets := pctChange ((close.drop (n - 10)).take 10)
  ∃ (ctx : HistCtx) (ju jd : ℕ) (vu vd : ℚ),
    historical_context dates close vol volma = Sum.inr ctx ∧
    ctx.priceChange10 = (close.getD (n - 1) 0 / close.getD (n - 10) 0 - 1) * 100 ∧
    ctx.volChange10 = vol_change_10d vol volma n ∧
    ctx.maxUpDate = dates.getD (n - 10 + ju) 0 ∧
    ctx.maxUpPct = vu * 100 ∧
    ctx.maxDownDate = dates.getD (n - 10 + jd) 0 ∧
    ctx.maxDownPct = vd * 100 ∧
    ju < rets.length ∧ rets.getD ju none = some vu ∧
    (∀ k w, k < rets.length → rets.getD k none = some w → w ≤ vu) ∧
    jd < rets.length ∧ rets.getD jd none = some vd ∧
    (∀ k w, k < rets.length → rets.getD k none = some w → vd ≤ w)

/-- C7: with fewer than 10 bars, `historical_context` returns exactly
the fixed insufficient-data message (and nothing raises); with at least
10 bars it returns the 10-bar cumulative percent change, the
volume-average shift, and the single largest up-day and down-day among
the trailing 10 daily returns, with their dates. -/
theorem historical_context_spec (dates : List ℕ) (close vol : List ℚ)
    (volma : List (Option ℚ)) :
    (close.length < 10 →
      historical_context dates close vol volma = Sum.inl insufficientMsg) ∧
    (10 ≤ close.length → HistContextOk dates close vol volma) := by
  constructor
  · intro h
    simp only [historical_context, if_pos h]
  · intro h10
    have hlt : ¬ close.length < 10 := not_lt.mpr h10
    simp only [HistContextOk]
    set rets := pctChange ((close.drop (close.length - 10)).take 10) with hretsdef
    have hwlen : ((close.drop (close.length - 10)).take 10).length = 10 := by
      simp only [List.length_take, List.length_drop]
      omega
    have hretslen : rets.length = 10 := by
      rw [hretsdef, length_pctChange, hwlen]
    have h1v : rets.getD 1 none =
        some (((close.drop (close.length - 10)).take 10).getD 1 0 /
          ((close.drop (close.length - 10)).take 10).getD 0 0 - 1) := by
      rw [hretsdef, List.getD_eq_getElem?_getD,
        pctChange_getElem? _ _ (by rw [hwlen]; omega)]
      rfl
    have h1ne : rets.getD 1 none ≠ none := by
      rw [h1v]
      exact fun hh => Option.noConfusion hh
    have hune : idxmaxO rets ≠ none :=
      idxmaxGo_ne_none rets 0 none 1 (by rw [hretslen]; omega) h1ne
    have hdne : idxminO rets ≠ none :=
      idxminGo_ne_none rets 0 none 1 (by rw [hretslen]; omega) h1ne
    cases hu : idxmaxO rets with
    | none => exact absurd hu hune
    | some pu =>
      cases hd : idxminO rets with
      | none => exact absurd hd hdne
      | some pd =>
        obtain ⟨ju, vu⟩ := pu
        obtain ⟨jd, vd⟩ := pd
        obtain ⟨hjul, hjuv, hjumax⟩ := idxmaxO_spec rets ju vu hu
        obtain ⟨hjdl, hjdv, hjdmin⟩ := idxminO_spec rets jd vd hd
        have hrun : historical_context dates close vol volma = Sum.inr
            { priceChange10 :=
                (close.getD (close.length - 1) 0 / close.getD (close.length - 10) 0 - 1) * 100
              volChange10 := vol_change_10d vol volma close.length
              maxUpDate := dates.getD (close.length - 10 + ju) 0
              maxDownDate := dates.getD (close.length - 10 + jd) 0
              maxUpPct := vu * 100
              maxDownPct := vd * 100 } := by
          simp only [historical_context]
          rw [if_neg hlt, ← hretsdef, hu, hd]
        exact ⟨_, ju, jd, vu, vd, hrun, rfl, rfl, rfl, rfl, rfl, rfl,
          hjul, hjuv, hjumax, hjdl, hjdv, hjdmin⟩

/-- Twelve-row sample frame used to instantiate `historical_context`. -/
def sampleDates : List ℕ := List.range 12

/-- Sample close column for the twelve-row frame. -/
def sampleClose : List ℚ := [10, 11, 12, 11, 13, 14, 13, 15, 16, 14, 17, 18]

/-- Sample volume column for the twelve-row frame. -/
def sampleVolList : List ℚ := List.replicate 12 1

/-- Sample `VOL_MA20` column for the twelve-row frame. -/
def sampleVolma : List (Option ℚ) := List.replicate 12 (some 1)

theorem historical_context_spec_witness :
    historical_context [0, 1, 2] [1, 2, 3] [1, 1, 1] [some 1, some 1, some 1] =
      Sum.inl insufficientMsg ∧
    HistContextOk sampleDates sampleClose sampleVolList sampleVolma :=
  ⟨(historical_context_spec [0, 1, 2] [1, 2, 3] [1, 1, 1]
      [some 1, some 1, some 1]).1 (by simp),
   (historical_context_spec sampleDates sampleClose sampleVolList sampleVolma).2
      (by simp [sampleClose])⟩

/-! ### Monotone price series: EMA comparison lemmas (for claim C9) -/

theorem ewma_getD_le (α : ℚ) (p : List ℚ) (h0 : 0 ≤ α) (h1 : α ≤ 1)
    (hmono : ∀ i, i + 1 < p.length → p.getD i 0 ≤ p.getD (i + 1) 0) :
    ∀ i, i < p.length → (ewma α p).getD i 0 ≤ p.getD i 0 := by
  intro i
  induction i with
  | zero =>
    intro hin
    rw [ewma_getD_zero' α p hin]
  | succ j ih =>
    intro hin
    have hj : j < p.length := by omega
    have hrec := ewma_getD_succ α p j hin
    have hle := ih hj
    have hpj := hmono j hin
    have h2 : (ewma α p).getD j 0 ≤ p.getD (j + 1) 0 := le_trans hle hpj
    rw [hrec]
    nlinarith [mul_le_mul_of_nonneg_left h2 (show (0:ℚ) ≤ 1 - α by linarith)]

theorem ewma_getD_step_lt (α : ℚ) (p : List ℚ) (h0 : 0 < α) (h1 : α ≤ 1)
    (hmono : ∀ i, i + 1 < p.length → p.getD i 0 < p.getD (i + 1) 0)
    (i : ℕ) (hin : i + 1 < p.length) :
    (ewma α p).getD i 0 < (ewma α p).getD (i + 1) 0 := by
  have hmono' : ∀ i, i + 1 < p.length → p.getD i 0 ≤ p.getD (i + 1) 0 :=
    fun i hi => le_of_lt (hmono i hi)
  have hrec := ewma_getD_succ α p i hin
  have hle := ewma_getD_le α p (le_of_lt h0) h1 hmono' i (by omega)
  have hpi := hmono i hin
  rw [hrec]
  nlinarith [mul_pos h0 (show (0:ℚ) < p.getD (i + 1) 0 - (ewma α p).getD i 0 by linarith)]

theorem ewma_getD_strictMono (α : ℚ) (p : List ℚ) (h0 : 0 < α) (h1 : α ≤ 1)
    (hmono : ∀ i, i + 1 < p.length → p.getD i 0 < p.getD (i + 1) 0) :
    ∀ j k, j < k → k < p.length → (ewma α p).getD j 0 < (ewma α p).getD k 0 := by
  intro j k
  induction k with
  | zero => omega
  | succ m ihm =>
    intro hjk hk
    rcases Nat.lt_succ_iff_lt_or_eq.mp hjk with h | h
    · exact lt_trans (ihm h (by omega)) (ewma_getD_step_lt α p h0 h1 hmono m hk)
    · subst h
      exact ewma_getD_step_lt α p h0 h1 hmono j hk

theorem ewma_getD_lt_ewma (α β : ℚ) (p : List ℚ) (hβ : 0 < β) (hβα : β < α)
    (hα : α ≤ 1)
    (hmono : ∀ i, i + 1 < p.length → p.getD i 0 < p.getD (i + 1) 0) :
    ∀ i, 1 ≤ i → i < p.length →
      (ewma β p).getD i 0 < (ewma α p).getD i 0 := by
  intro i
  induction i with
  | zero => omega
  | succ j ihj =>
    intro _ hin
    rcases Nat.eq_zero_or_pos j with hj0 | hjpos
    · subst hj0
      have ha := ewma_getD_succ α p 0 hin
      have hb := ewma_getD_succ β p 0 hin
      have h00 : (ewma α p).getD 0 0 = p.getD 0 0 := ewma_getD_zero' _ _ (by omega)
      have h01 : (ewma β p).getD 0 0 = p.getD 0 0 := ewma_getD_zero' _ _ (by omega)
      have hp01 := hmono 0 hin
      rw [ha, hb, h00, h01]
      nlinarith [mul_pos (show (0:ℚ) < α - β by linarith)
        (show (0:ℚ) < p.getD 1 0 - p.getD 0 0 by linarith)]
    · have hprev := ihj hjpos (by omega)
      have ha := ewma_getD_succ α p j hin
      have hb := ewma_getD_succ β p j hin
      have hmono' : ∀ i, i + 1 < p.length → p.getD i 0 ≤ p.getD (i + 1) 0 :=
        fun i hi => le_of_lt (hmono i hi)
      have hle := ewma_getD_le β p (le_of_lt hβ) (by linarith) hmono' j (by omega)
      have hpj := hmono j hin
      rw [ha, hb]
      nlinarith [mul_nonneg (show (0:ℚ) ≤ 1 - α by linarith)
          (show (0:ℚ) ≤ (ewma α p).getD j 0 - (ewma β p).getD j 0 by linarith),
        mul_pos (show (0:ℚ) < α - β by linarith)
          (show (0:ℚ) < p.getD (j + 1) 0 - (ewma β p).getD j 0 by linarith)]

/-! ### C9: the 25-bar strictly increasing scenario -/

theorem negDeltas_diffW_of_mono (p : List ℚ)
    (hmono : ∀ i, i + 1 < p.length → p.getD i 0 < p.getD (i + 1) 0) :
    negDeltas (diffW p) = List.replicate p.length (0:ℚ) := by
  apply List.ext_getElem?
  intro i
  by_cases h : i < p.length
  · rw [negDeltas, List.getElem?_map, diffW_getElem? _ _ (by simpa using h),
      List.getElem?_replicate, if_pos h]
    rcases Nat.eq_zero_or_pos i with hz | hpos
    · simp [hz, negClip]
    · have hi0 : i ≠ 0 := Nat.pos_iff_ne_zero.mp hpos
      rw [if_neg hi0]
      have hd : p.getD (i - 1) 0 < p.getD i 0 := by
        have hstep := hmono (i - 1) (by omega)
        have heq : i - 1 + 1 = i := by omega
        rwa [heq] at hstep
      have hne : ¬(p.getD i 0 - p.getD (i - 1) 0 < 0) := by linarith
      show some (negClip (some (p.getD i 0 - p.getD (i - 1) 0))) = some (0:ℚ)
      simp only [negClip]
      rw [if_neg hne]
  · rw [List.getElem?_eq_none (by simp; omega), List.getElem?_eq_none (by simp; omega)]

theorem posDeltas_nonneg (d : List (Option ℚ)) : ∀ x ∈ posDeltas d, 0 ≤ x := by
  intro x hx
  rw [posDeltas] at hx
  obtain ⟨y, _, rfl⟩ := List.mem_map.mp hx
  cases y with
  | none => simp [posClip]
  | some v =>
    simp only [posClip]
    split_ifs with hv
    · exact le_of_lt hv
    · exact le_refl 0

theorem posDeltas_diffW_getD (p : List ℚ) (i : ℕ) (hi0 : i ≠ 0) (hin : i < p.length)
    (hd : p.getD (i - 1) 0 < p.getD i 0) :
    (posDeltas (diffW p)).getD i 0 = p.getD i 0 - p.getD (i - 1) 0 := by
  rw [List.getD_eq_getElem?_getD, posDeltas, List.getElem?_map,
    diffW_getElem? _ _ (by simpa using hin), if_neg hi0]
  have hd' : (0:ℚ) < p.getD i 0 - p.getD (i - 1) 0 := by linarith
  show posClip (some (p.getD i 0 - p.getD (i - 1) 0)) = p.getD i 0 - p.getD (i - 1) 0
  simp only [posClip]
  rw [if_pos hd']

theorem rollingMean_getD_pos (w m : ℕ) (p : List ℚ) (i : ℕ) (hin : i < p.length)
    (hm : 0 < m) (hmw : m ≤ min (i + 1) w)
    (hnn : ∀ x ∈ p, 0 ≤ x) (hpos : 0 < p.getD i 0) :
    ∃ q, 0 < q ∧ (rollingMean w m p).getD i none = some q := by
  have htl : (p.take (i + 1)).length = i + 1 := by
    simp only [List.length_take]
    omega
  have hwl : ((p.take (i + 1)).drop (i + 1 - w)).length = min (i + 1) w := by
    rw [List.length_drop, htl]
    omega
  have hwlpos : 0 < ((p.take (i + 1)).drop (i + 1 - w)).length := by omega
  have hidx : i + 1 - w + (((p.take (i + 1)).drop (i + 1 - w)).length - 1) = i := by
    rw [hwl]
    omega
  have hmem : p.getD i 0 ∈ (p.take (i + 1)).drop (i + 1 - w) := by
    have hq : ((p.take (i + 1)).drop (i + 1 - w))[((p.take (i + 1)).drop (i + 1 - w)).length - 1]? =
        some (p.getD i 0) := by
      rw [List.getElem?_drop, hidx, List.getElem?_take, if_pos (by omega),
        List.getElem?_eq_getElem hin, getD_eq_getElem' p i 0 hin]
    exact List.getElem?_mem hq
  have hnnwin : ∀ x ∈ (p.take (i + 1)).drop (i + 1 - w), 0 ≤ x := by
    intro x hx
    exact hnn x (List.mem_of_mem_take (List.mem_of_mem_drop hx))
  have hsum : 0 < ((p.take (i + 1)).drop (i + 1 - w)).sum :=
    lt_of_lt_of_le hpos (List.single_le_sum hnnwin _ hmem)
  refine ⟨((p.take (i + 1)).drop (i + 1 - w)).sum /
      (((p.take (i + 1)).drop (i + 1 - w)).length : ℚ), ?_, ?_⟩
  · exact div_pos hsum (by exact_mod_cast hwlpos)
  · rw [List.getD_eq_getElem?_getD, rollingMean_getElem? w m p i hin,
      if_pos (by rw [hwl]; exact hmw)]
    rfl

theorem rsi_of_strict_increase (p v : List ℚ) (hlen : p.length = 25)
    (hmono : ∀ i, i + 1 < p.length → p.getD i 0 < p.getD (i + 1) 0) :
    (compute_indicators p v).rsi.getD 24 none = some 100 := by
  rw [compute_indicators_rsi]
  have hglen : (posDeltas (diffW p)).length = 25 := by simp [hlen]
  have hneg : negDeltas (diffW p) = List.replicate p.length 0 :=
    negDeltas_diffW_of_mono p hmono
  have hd24 : p.getD 23 0 < p.getD 24 0 := hmono 23 (by omega)
  have hg24 : 0 < (posDeltas (diffW p)).getD 24 0 := by
    rw [posDeltas_diffW_getD p 24 (by omega) (by omega) hd24]
    linarith
  obtain ⟨qg, hqg, hgval⟩ := rollingMean_getD_pos 14 14 (posDeltas (diffW p)) 24
    (by omega) (by omega) (by omega) (posDeltas_nonneg _) hg24
  have hchk : 24 < (rollingMean 14 14 (List.replicate 25 (0:ℚ))).length := by simp
  have hlget := rollingMean_replicate_zero_getElem 14 14 25 24 (by omega) (by omega) hchk
  rw [List.get_eq_getElem] at hlget
  have hlval : (rollingMean 14 14 (negDeltas (diffW p))).getD 24 none = some 0 := by
    rw [hneg, hlen, List.getD_eq_getElem?_getD, List.getElem?_eq_getElem hchk, hlget]
    rfl
  have hza : 24 < (rollingMean 14 14 (posDeltas (diffW p))).length := by simp [hlen]
  have hzb : 24 < (rollingMean 14 14 (negDeltas (diffW p))).length := by simp [hlen]
  rw [List.getD_eq_getElem?_getD, getElem?_zipWith_of_lt rsiCombine _ _ 24 hza hzb]
  have hga : (rollingMean 14 14 (posDeltas (diffW p))).get ⟨24, hza⟩ = some qg := by
    rw [List.get_eq_getElem, ← getD_eq_getElem' _ 24 none hza]
    exact hgval
  have hgb : (rollingMean 14 14 (negDeltas (diffW p))).get ⟨24, hzb⟩ = some 0 := by
    rw [List.get_eq_getElem, ← getD_eq_getElem' _ 24 none hzb]
    exact hlval
  rw [hga, hgb]
  simp [rsiCombine, ne_of_gt hqg]

theorem overall_trend_text_bull (e10 e30 e40 : List ℚ)
    (hc : e10.getD (e10.length - 1) 0 > e30.getD (e10.length - 1) 0 ∧
          e30.getD (e10.length - 1) 0 > e40.getD (e10.length - 1) 0 ∧
          (if 6 ≤ e10.length then
            e10.getD (e10.length - 1) 0 - e10.getD (e10.length - 5) 0
           else e10.getD (e10.length - 1) 0 - e10.getD 0 0) > 0 ∧
          (if 6 ≤ e10.length then
            e30.getD (e10.length - 1) 0 - e30.getD (e10.length - 5) 0
           else e30.getD (e10.length - 1) 0 - e30.getD 0 0) > 0) :
    overall_trend_text e10 e30 e40 = "中期趨勢仍偏多（均線多頭排列且向上）" := by
  simp only [overall_trend_text]
  rw [if_pos hc]

theorem trend_of_strict_increase (p v : List ℚ) (hlen : p.length = 25)
    (hmono : ∀ i, i + 1 < p.length → p.getD i 0 < p.getD (i + 1) 0) :
    overall_trend_text (compute_indicators p v).ema10 (compute_indicators p v).ema30
      (compute_indicators p v).ema40 = "中期趨勢仍偏多（均線多頭排列且向上）" := by
  rw [compute_indicators_ema10, compute_indicators_ema30, compute_indicators_ema40]
  have hn : (ewma (2 / 11) p).length = 25 := by simp [hlen]
  have h1 : (ewma (2 / 31) p).getD 24 0 < (ewma (2 / 11) p).getD 24 0 :=
    ewma_getD_lt_ewma (2 / 11) (2 / 31) p (by norm_num) (by norm_num) (by norm_num)
      hmono 24 (by omega) (by omega)
  have h2 : (ewma (2 / 41) p).getD 24 0 < (ewma (2 / 31) p).getD 24 0 :=
    ewma_getD_lt_ewma (2 / 31) (2 / 41) p (by norm_num) (by norm_num) (by norm_num)
      hmono 24 (by omega) (by omega)
  have h3 : (ewma (2 / 11) p).getD 20 0 < (ewma (2 / 11) p).getD 24 0 :=
    ewma_getD_strictMono (2 / 11) p (by norm_num) (by norm_num) hmono 20 24
      (by omega) (by omega)
  have h4 : (ewma (2 / 31) p).getD 20 0 < (ewma (2 / 31) p).getD 24 0 :=
    ewma_getD_strictMono (2 / 31) p (by norm_num) (by norm_num) hmono 20 24
      (by omega) (by omega)
  apply overall_trend_text_bull
  rw [hn]
  refine ⟨h1, h2, ?_, ?_⟩
  · show (ewma (2 / 11) p).getD 24 0 - (ewma (2 / 11) p).getD 20 0 > 0
    linarith
  · show (ewma (2 / 31) p).getD 24 0 - (ewma (2 / 31) p).getD 20 0 > 0
    linarith

/-- Conclusion of the C9 scenario for a 25-bar frame: the EMA columns
are ordered `EMA10 > EMA30 > EMA40` at every bar from the second on (in
particular at the last bar), the trend classifier answers the bullish
label, and the RSI at bar 25 is the well-defined value 100 — exceeding
70 — produced by the `gain/0 = +inf` fallback, with no NaN. -/
def Bull25Concl (closes vols : List ℚ) : Prop :=
  (∀ i, 1 ≤ i → i < 25 →
    (compute_indicators closes vols).ema40.getD i 0 <
      (compute_indicators closes vols).ema30.getD i 0 ∧
    (compute_indicators closes vols).ema30.getD i 0 <
      (compute_indicators closes vols).ema10.getD i 0) ∧
  overall_trend_text (compute_indicators closes vols).ema10
    (compute_indicators closes vols).ema30 (compute_indicators closes vols).ema40 =
    "中期趨勢仍偏多（均線多頭排列且向上）" ∧
  ∃ r : ℚ, (compute_indicators closes vols).rsi.getD 24 none = some r ∧ 70 < r

/-- C9: for 25 daily bars with strictly increasing closes, EMA10 >
EMA30 > EMA40 holds throughout (every bar after the first, where all
EMAs coincide), the trend classifier returns the bullish label, and the
RSI at bar 25 is exactly 100 > 70: the zero average loss makes
`gain/loss` the float `+inf`, which the RSI formula maps to the stable
value 100 rather than a NaN or an error. -/
theorem bullish_scenario_25 (closes vols : List ℚ) (hlen : closes.length = 25)
    (hmono : ∀ i, i + 1 < closes.length → closes.getD i 0 < closes.getD (i + 1) 0) :
    Bull25Concl closes vols := by
  refine ⟨?_, trend_of_strict_increase closes vols hlen hmono, 100,
    rsi_of_strict_increase closes vols hlen hmono, by norm_num⟩
  intro i hi1 hi2
  rw [compute_indicators_ema10, compute_indicators_ema30, compute_indicators_ema40]
  exact ⟨ewma_getD_lt_ewma (2 / 31) (2 / 41) closes (by norm_num) (by norm_num)
      (by norm_num) hmono i hi1 (by omega),
    ewma_getD_lt_ewma (2 / 11) (2 / 31) closes (by norm_num) (by norm_num)
      (by norm_num) hmono i hi1 (by omega)⟩

/-- Strictly increasing 25-bar close column `1, 2, …, 25`. -/
def sampleUp : List ℚ :=
  [1, 2, 3, 4, 5, 6, 7, 8, 9, 10, 11, 12, 13, 14, 15, 16, 17, 18, 19, 20, 21,
   22, 23, 24, 25]

theorem bullish_scenario_25_witness : Bull25Concl sampleUp (List.replicate 25 1) :=
  bullish_scenario_25 sampleUp (List.replicate 25 1) (by rfl)
    (by
      intro i hi
      have hlen25 : sampleUp.length = 25 := rfl
      have hi24 : i < 24 := by omega
      interval_cases i <;> norm_num [sampleUp])
